import Mathlib

/-!
Shallow embedding of the interactive terminal prompt engine of
`src/wkfl/src/prompts.rs` (modal line editor, selection list with fuzzy
filtering, boolean toggle prompt), together with proofs checking the
natural-language specification's claims against it.

Modelling conventions:
* Rust `String` text is modelled as `List Char`.  The source conflates
  character counts and byte indices (documented in the spec as a known
  limitation); for the ASCII inputs of all concrete claims the two agree,
  and the positional `List Char` model is used throughout.
* `usize`/`u16` arithmetic that can underflow or overflow in the source is
  modelled with checked operations returning `Option Nat`; `none` stands
  for the debug-build panic of Rust arithmetic (and for the always-panicking
  out-of-bounds `String::remove` / `replace_range` / slice indexing).
  Additions on `usize` quantities (cursor, text length) cannot reach
  `2^64` for any realisable input and are modelled as plain `Nat` addition.
* `char::is_alphanumeric` is modelled by `Char.isAlphanum`; the two agree on
  ASCII text, and no theorem below depends on the exact word-character set.
* Fallible I/O (the terminal driver) is modelled by an explicit event
  script; rendering calls are pure no-ops in the model.
-/

namespace Prompts

/-- Checked `usize`/`u16` subtraction: Rust debug builds panic on underflow,
so `none` models that panic. -/
def checkedSub (a b : Nat) : Option Nat :=
  if b ≤ a then some (a - b) else none

/-- Largest value of Rust's `u16`. -/
def u16Max : Nat := 65535

/-- Checked `u16` addition: `none` models the debug-build overflow panic. -/
def u16Add (a b : Nat) : Option Nat :=
  if a + b ≤ u16Max then some (a + b) else none

/-- Word-character predicate of the word motions: Rust
`char::is_alphanumeric` (agrees with `Char.isAlphanum` on ASCII). -/
def isWordChar (c : Char) : Bool := c.isAlphanum

/-- Rust `str::char_indices` starting from position `i`: pairs each
character with its index.  (Byte index and character position agree in the
`List Char` model.) -/
def charIndicesFrom (i : Nat) : List Char → List (Nat × Char)
  | [] => []
  | c :: cs => (i, c) :: charIndicesFrom (i + 1) cs

/-- Rust `str::char_indices`. -/
def charIndices (l : List Char) : List (Nat × Char) := charIndicesFrom 0 l

/-- Embeds `OpAdjust` (prompts.rs:16). -/
inductive OpAdjust
  | empty
  | around
  | inner
deriving DecidableEq, Repr

/-- Embeds `Operation` (prompts.rs:23). -/
inductive Operation
  | change (adjust : OpAdjust)
  | delete (adjust : OpAdjust)
deriving DecidableEq, Repr

/-- Embeds `PromptMode` (prompts.rs:29). -/
inductive PromptMode
  | normal
  | insert
  | opPending (op : Operation)
deriving DecidableEq, Repr

/-- Embeds `PromptState` (prompts.rs:35).  `line` is the text as a
character list. -/
structure PromptState where
  cursor : Nat
  input_start : Nat
  input_row : Nat
  line : List Char
  mode : PromptMode
deriving DecidableEq, Repr

/-- Embeds `PromptState::new` (prompts.rs:44). -/
def PromptState.new (input_start input_row : Nat) : PromptState :=
  { cursor := 0, input_start := input_start, input_row := input_row,
    line := [], mode := .insert }

/-- Embeds `PromptState::max_cursor` (prompts.rs:54).  In `Normal` and
`OperatorPending` modes the source computes `self.line.len() - 1`, which
panics (checked arithmetic) on an empty line. -/
def PromptState.max_cursor (s : PromptState) : Option Nat :=
  match s.mode with
  | .insert => some s.line.length
  | .normal | .opPending _ => checkedSub s.line.length 1

/-- Embeds `PromptState::insert_mode` (prompts.rs:62). -/
def PromptState.insert_mode (s : PromptState) : PromptState :=
  { s with mode := .insert }

/-- Embeds `PromptState::normal_mode` (prompts.rs:66). -/
def PromptState.normal_mode (s : PromptState) : PromptState :=
  { s with mode := .normal }

/-- Embeds `PromptState::operator_pending_mode` (prompts.rs:70). -/
def PromptState.operator_pending_mode (s : PromptState) (op : Operation) :
    PromptState :=
  { s with mode := .opPending op }

/-- Embeds `PromptState::move_to_start` (prompts.rs:74). -/
def PromptState.move_to_start (s : PromptState) : PromptState :=
  { s with cursor := 0 }

/-- Embeds `PromptState::move_to_end` (prompts.rs:78). -/
def PromptState.move_to_end (s : PromptState) : Option PromptState := do
  let m ← s.max_cursor
  pure { s with cursor := m }

/-- Embeds `PromptState::move_left` (prompts.rs:82). -/
def PromptState.move_left (s : PromptState) : PromptState :=
  if s.cursor > 0 then { s with cursor := s.cursor - 1 } else s

/-- Embeds `PromptState::move_right` (prompts.rs:88). -/
def PromptState.move_right (s : PromptState) : Option PromptState := do
  let m ← s.max_cursor
  if s.cursor < m then pure { s with cursor := s.cursor + 1 } else pure s

/-- Embeds `PromptState::get_current_word_end` (prompts.rs:113).  The
iterator chain is `char_indices().skip(cursor + 1)`, then
`skip_while(not word)` and `find(not word)`; the fallback branch computes
`line.len() - 1` (checked). -/
def get_current_word_end (line : List Char) (cursor : Nat) : Option Nat :=
  match (((charIndices line).drop (cursor + 1)).dropWhile
      (fun p => !isWordChar p.2)).find? (fun p => !isWordChar p.2) with
  | some p => checkedSub p.1 1
  | none => checkedSub line.length 1

/-- Embeds `PromptState::get_current_word_start` (prompts.rs:132): the same
scan over `char_indices().rev().skip(line.len() - cursor)`. -/
def get_current_word_start (line : List Char) (cursor : Nat) : Option Nat := do
  let k ← checkedSub line.length cursor
  match (((charIndices line).reverse.drop k).dropWhile
      (fun p => !isWordChar p.2)).find? (fun p => !isWordChar p.2) with
  | some p => pure (p.1 + 1)
  | none => pure 0

/-- Embeds `PromptState::get_next_word_start` (prompts.rs:152). -/
def get_next_word_start (line : List Char) (cursor : Nat) : Option Nat :=
  match (((charIndices line).drop cursor).dropWhile
      (fun p => isWordChar p.2)).find? (fun p => isWordChar p.2) with
  | some p => some p.1
  | none => checkedSub line.length 1

/-- Embeds the three cursor word motions (prompts.rs:95, 101, 107). -/
def PromptState.move_to_current_word_end (s : PromptState) :
    Option PromptState := do
  let m ← s.max_cursor
  if s.cursor < m then do
    let e ← get_current_word_end s.line s.cursor
    pure { s with cursor := e }
  else pure s

/-- Embeds `PromptState::move_to_current_word_start` (prompts.rs:101);
note the guard is `cursor > 0` and does not call `max_cursor`. -/
def PromptState.move_to_current_word_start (s : PromptState) :
    Option PromptState :=
  if s.cursor > 0 then do
    let w ← get_current_word_start s.line s.cursor
    pure { s with cursor := w }
  else pure s

/-- Embeds `PromptState::move_to_next_word_start` (prompts.rs:107). -/
def PromptState.move_to_next_word_start (s : PromptState) :
    Option PromptState := do
  let m ← s.max_cursor
  if s.cursor < m then do
    let w ← get_next_word_start s.line s.cursor
    pure { s with cursor := w }
  else pure s

/-- Embeds `PromptState::delete_range` (prompts.rs:191).  `stop` is the
source's `end`.  `String::replace_range` panics when the range is
ill-formed or past the end of the text. -/
def PromptState.delete_range (s : PromptState) (start stop : Nat) :
    Option PromptState :=
  if start ≤ stop ∧ stop ≤ s.line.length then
    some { s with line := s.line.take start ++ s.line.drop stop,
                  cursor := start }
  else none

/-- Embeds `PromptState::delete_word` (prompts.rs:171), with the source's
two `let` initialisers written as explicit `Option.bind`s. -/
def PromptState.delete_word (s : PromptState) (adjustment : OpAdjust) :
    Option PromptState :=
  (if adjustment = .empty then some s.cursor
   else get_current_word_start s.line s.cursor).bind fun start =>
  (if adjustment = .inner then get_current_word_end s.line s.cursor
   else
     (get_next_word_start s.line s.cursor).bind fun word_start =>
     (checkedSub s.line.length 1).bind fun lastIdx =>
     if word_start = lastIdx then some word_start
     else checkedSub word_start 1).bind fun stop =>
  s.delete_range start (stop + 1)

/-- Embeds `PromptState::delete_current_char` (prompts.rs:196).
`String::remove` panics when the cursor is at or past the end. -/
def PromptState.delete_current_char (s : PromptState) : Option PromptState :=
  if s.cursor < s.line.length then
    some { s with line := s.line.eraseIdx s.cursor }
  else none

/-- Embeds `PromptState::delete_all` (prompts.rs:200). -/
def PromptState.delete_all (s : PromptState) : PromptState :=
  { s with line := [], cursor := 0 }

/-- Embeds `PromptState::insert_char` (prompts.rs:205).  When
`cursor < max_cursor()` the source inserts at the cursor (in range, since
`max_cursor ≤ line.len()`), otherwise it pushes at the end. -/
def PromptState.insert_char (s : PromptState) (c : Char) :
    Option PromptState := do
  let m ← s.max_cursor
  if s.cursor < m then pure { s with line := s.line.insertIdx s.cursor c }
  else pure { s with line := s.line ++ [c] }

/-- Key codes distinguished by the source's match arms; `other` covers every
other `crossterm` key code. -/
inductive KeyCode
  | char (c : Char)
  | enter
  | backspace
  | esc
  | other
deriving DecidableEq, Repr

/-- Modifier sets distinguished by the source's match arms (`NONE`, `SHIFT`,
`CONTROL` exactly); `other` covers every other combination of the
`KeyModifiers` bitflags. -/
inductive Modifiers
  | none
  | shift
  | control
  | other
deriving DecidableEq, Repr

/-- Result of `handle_key`: `interrupted` embeds the `bail!("ctrl-c sent")`
error, `ok done state` embeds `Ok(done)` together with the mutated state. -/
inductive HandleResult
  | interrupted
  | ok (done : Bool) (state : PromptState)
deriving DecidableEq, Repr

/-- Embeds the `(PromptMode::Normal, KeyCode::Char(c))` arm of `handle_key`
(prompts.rs:253). -/
def normal_char (s : PromptState) (c : Char) : Option PromptState :=
  match c with
  | 'i' => pure s.insert_mode
  | 'I' => pure s.insert_mode.move_to_start
  | 'a' => s.insert_mode.move_right
  | 'A' => s.insert_mode.move_to_end
  | 'x' => s.delete_current_char
  | 'X' => s.move_left.delete_current_char
  | 'h' => pure s.move_left
  | 'l' => s.move_right
  | 'c' => pure (s.operator_pending_mode (.change .empty))
  | 'd' => pure (s.operator_pending_mode (.delete .empty))
  | 'e' => s.move_to_current_word_end
  | 'b' => s.move_to_current_word_start
  | 'w' => s.move_to_next_word_start
  | _ => pure s

/-- Embeds the `(PromptMode::OperatorPending(op), KeyCode::Char(c))` arm of
`handle_key` (prompts.rs:281). -/
def op_pending_char (s : PromptState) (op : Operation) (c : Char) :
    Option PromptState :=
  match op, c with
  | .change .empty, 'i' => pure (s.operator_pending_mode (.change .inner))
  | .change .empty, 'a' => pure (s.operator_pending_mode (.change .around))
  | .delete .empty, 'i' => pure (s.operator_pending_mode (.delete .inner))
  | .delete .empty, 'a' => pure (s.operator_pending_mode (.delete .around))
  | .change adjustment, 'w' => do
    let s1 ← s.delete_word adjustment
    pure s1.insert_mode
  | .delete adjustment, 'w' => do
    let s1 ← s.delete_word adjustment
    pure s1.normal_mode
  | .change .empty, 'e' => do
    let e ← get_current_word_end s.line s.cursor
    let s1 ← s.delete_range s.cursor (e + 1)
    pure s1.insert_mode
  | .delete .empty, 'e' => do
    let e ← get_current_word_end s.line s.cursor
    let s1 ← s.delete_range s.cursor (e + 1)
    pure s1.normal_mode
  | .change .empty, 'b' => do
    let w ← get_current_word_start s.line s.cursor
    let s1 ← s.delete_range w s.cursor
    pure s1.insert_mode
  | .delete .empty, 'b' => do
    let w ← get_current_word_start s.line s.cursor
    let s1 ← s.delete_range w s.cursor
    pure s1.normal_mode
  | .change .empty, 'c' => pure s.delete_all.insert_mode
  | .delete .empty, 'd' => pure s.delete_all.normal_mode
  | _, _ => pure s.normal_mode

/-- Embeds the `(PromptMode::Insert, KeyCode::Backspace)` arm of
`handle_key` (prompts.rs:239). -/
def insert_backspace (s : PromptState) : Option PromptState := do
  let m ← s.max_cursor
  if s.cursor < m then
    if s.cursor ≠ 0 then s.move_left.delete_current_char
    else pure s
  else
    match s.line with
    | [] => pure s
    | _ :: _ => pure { s with line := s.line.dropLast }.move_left

/-- Embeds the inner `(mode, keycode)` match of `handle_key`
(prompts.rs:230), reached when the modifiers are `NONE` or `SHIFT`. -/
def handle_key_unmodified (s : PromptState) (key : KeyCode) :
    Option HandleResult :=
  match s.mode, key with
  | _, .enter => some (.ok true s)
  | .insert, .esc => some (.ok false s.normal_mode.move_left)
  | .normal, .backspace => some (.ok false s.move_left)
  | .insert, .backspace =>
    match insert_backspace s with
    | some s1 => some (.ok false s1)
    | none => none
  | .insert, .char c =>
    match (do
        let s1 ← s.insert_char c
        s1.move_right) with
    | some s2 => some (.ok false s2)
    | none => none
  | .normal, .char c =>
    match normal_char s c with
    | some s1 => some (.ok false s1)
    | none => none
  | .opPending op, .char c =>
    match op_pending_char s op c with
    | some s1 => some (.ok false s1)
    | none => none
  | _, _ => some (.ok false s)

/-- Embeds `handle_key` (prompts.rs:221): `Ctrl-C` bails in every mode, the
`NONE`/`SHIFT` modifier arm dispatches on `(mode, keycode)`, every other
modifier combination is ignored. -/
def handle_key (s : PromptState) (key : KeyCode) (modifiers : Modifiers) :
    Option HandleResult :=
  match key, modifiers with
  | .char 'c', .control => some .interrupted
  | key, .none | key, .shift => handle_key_unmodified s key
  | _, _ => some (.ok false s)

/-- Iterates `handle_key` over a list of key events, propagating the panic
(`none`) and stopping with `none` on an `interrupted` result. -/
def step_keys : PromptState → List (KeyCode × Modifiers) → Option PromptState
  | s, [] => some s
  | s, k :: ks =>
    match handle_key s k.1 k.2 with
    | some (.ok _ s') => step_keys s' ks
    | _ => none

/-- Embeds `SelectionState` (prompts.rs:387).  The numeric fields are `u16`
in the source; their arithmetic is modelled with checked `u16` operations. -/
structure SelectionState where
  selected : Nat
  first_item : Nat
  items_shown : Nat
  max_index : Nat
  has_options : Bool
  prompt_state : PromptState
deriving DecidableEq, Repr

/-- Embeds `SelectionState::new` (prompts.rs:397). -/
def SelectionState.new (items_shown input_start input_row max_index : Nat) :
    SelectionState :=
  { selected := 0, first_item := 0, items_shown := items_shown,
    max_index := max_index, has_options := true,
    prompt_state := PromptState.new input_start input_row }

/-- Embeds `SelectionState::update_max_index` (prompts.rs:408). -/
def SelectionState.update_max_index (s : SelectionState)
    (max_index : Nat) (has_options : Bool) : Option SelectionState := do
  let s := { s with has_options := has_options, max_index := max_index }
  let s :=
    if s.selected > s.max_index then { s with selected := s.max_index } else s
  let t ← u16Add s.first_item s.items_shown
  if t > s.max_index then
    let u ← u16Add s.items_shown 1
    if u > s.max_index then pure { s with first_item := 0 }
    else do
      let v ← checkedSub s.max_index s.items_shown
      let f ← u16Add v 1
      pure { s with first_item := f }
  else pure s

/-- Embeds `SelectionState::next_item` (prompts.rs:425).  The source
computes `first_item + items_shown - 2` in `u16`, which panics (checked
arithmetic) when `first_item + items_shown < 2`. -/
def SelectionState.next_item (s : SelectionState) : Option SelectionState :=
  if s.selected < s.max_index then
    (u16Add s.selected 1).bind fun sel =>
    (u16Add s.first_item s.items_shown).bind fun t =>
    (checkedSub t 2).bind fun t2 =>
    if t2 < sel ∧ s.first_item < s.max_index then
      (u16Add s.first_item 1).bind fun f =>
      some { s with selected := sel, first_item := f }
    else some { s with selected := sel }
  else some s

/-- Embeds `SelectionState::previous_item` (prompts.rs:437). -/
def SelectionState.previous_item (s : SelectionState) :
    Option SelectionState :=
  if s.selected > 0 then
    (checkedSub s.selected 1).bind fun sel =>
    (u16Add s.first_item 1).bind fun t =>
    if t > sel ∧ s.first_item > 0 then
      (checkedSub s.first_item 1).bind fun f =>
      some { s with selected := sel, first_item := f }
    else some { s with selected := sel }
  else some s

/-- Result of `select_handle_key`, mirroring `HandleResult` for the
selection state. -/
inductive SelectHandleResult
  | interrupted
  | ok (done : Bool) (state : SelectionState)
deriving DecidableEq, Repr

/-- Embeds `select_handle_key` (prompts.rs:448): `Enter` completes only when
`has_options` holds (otherwise it is a no-op), `j`/`k` in `Normal` mode and
`Ctrl-N`/`Ctrl-P` in `Insert` mode navigate, and every other key falls
through to `handle_key` on the embedded prompt state. -/
def select_handle_key (s : SelectionState) (key : KeyCode)
    (modifiers : Modifiers) : Option SelectHandleResult :=
  match s.prompt_state.mode, key, modifiers with
  | _, .enter, .none =>
    if s.has_options then some (.ok true s) else some (.ok false s)
  | .normal, .char 'j', .none =>
    match s.next_item with
    | some s' => some (.ok false s')
    | none => none
  | .normal, .char 'k', .none =>
    match s.previous_item with
    | some s' => some (.ok false s')
    | none => none
  | .insert, .char 'n', .control =>
    match s.next_item with
    | some s' => some (.ok false s')
    | none => none
  | .insert, .char 'p', .control =>
    match s.previous_item with
    | some s' => some (.ok false s')
    | none => none
  | _, key, modifiers =>
    match handle_key s.prompt_state key modifiers with
    | none => none
    | some .interrupted => some .interrupted
    | some (.ok done ps) => some (.ok done { s with prompt_state := ps })

/-- Rust `str::split_whitespace` on the character-list model: maximal runs
of non-whitespace characters. -/
def split_whitespace : List Char → List (List Char)
  | [] => []
  | c :: rest =>
    if c.isWhitespace then split_whitespace rest
    else (c :: rest.takeWhile (fun d => !d.isWhitespace)) ::
      split_whitespace (rest.dropWhile (fun d => !d.isWhitespace))
termination_by l => l.length
decreasing_by
  · simp
  · exact Nat.lt_succ_of_le (List.Sublist.length_le (List.dropWhile_sublist _))

/-- Embeds `calculate_match_score` (prompts.rs:507), parameterised by the
matcher (the external `SkimMatcherV2::fuzzy_match`): sums per-term scores,
returning `None` as soon as one term fails to match. -/
def calculate_match_score (option : List Char) (filter_terms : List (List Char))
    (matcher : List Char → List Char → Option Int) : Option Int :=
  match filter_terms with
  | [] => some 0
  | t :: ts => do
    let term_score ← matcher option t
    let rest ← calculate_match_score option ts matcher
    pure (term_score + rest)

/-- Byte-lexicographic `≤` of Rust `String` `Ord` on the character model
(UTF-8 byte order coincides with code-point order). -/
def string_le : List Char → List Char → Bool
  | [], _ => true
  | _ :: _, [] => false
  | a :: s1, b :: s2 =>
    if a.toNat < b.toNat then true
    else if b.toNat < a.toNat then false
    else string_le s1 s2

/-- The `Ord` order on the `(i64, &String)` pairs sorted by
`filter_options`: lexicographic on the pair. -/
def pair_le (a b : Int × List Char) : Prop :=
  a.1 < b.1 ∨ (a.1 = b.1 ∧ string_le a.2 b.2 = true)

instance : DecidableRel pair_le := fun a b => by
  unfold pair_le; infer_instance

instance : IsTotal (Int × List Char) pair_le := ⟨by
  have hst : ∀ (x y : List Char),
      string_le x y = true ∨ string_le y x = true := by
    intro x
    induction x with
    | nil => intro y; left; rfl
    | cons a as ih =>
      intro y
      cases y with
      | nil => right; rfl
      | cons b bs =>
        unfold string_le
        rcases Nat.lt_trichotomy a.toNat b.toNat with h | h | h
        · left; rw [if_pos h]
        · rw [if_neg (by omega), if_neg (by omega), if_neg (by omega),
            if_neg (by omega)]
          exact ih bs
        · right; rw [if_pos h]
  intro a b
  unfold pair_le
  rcases lt_trichotomy a.1 b.1 with h | h | h
  · left; left; exact h
  · rcases hst a.2 b.2 with h2 | h2
    · left; right; exact ⟨h, h2⟩
    · right; right; exact ⟨h.symm, h2⟩
  · right; left; exact h⟩

instance : IsTrans (Int × List Char) pair_le := ⟨by
  have hst : ∀ (x y z : List Char), string_le x y = true →
      string_le y z = true → string_le x z = true := by
    intro x
    induction x with
    | nil => intro y z _ _; rfl
    | cons a as ih =>
      intro y z hxy hyz
      cases y with
      | nil => simp [string_le] at hxy
      | cons b bs =>
        cases z with
        | nil => simp [string_le] at hyz
        | cons c cs =>
          unfold string_le at hxy hyz ⊢
          by_cases h1 : a.toNat < b.toNat
          · by_cases h3 : c.toNat < b.toNat
            · rw [if_neg (by omega), if_pos h3] at hyz
              exact absurd hyz (by simp)
            · rw [if_pos (by omega)]
          · by_cases h1' : b.toNat < a.toNat
            · rw [if_neg h1, if_pos h1'] at hxy
              exact absurd hxy (by simp)
            · rw [if_neg h1, if_neg h1'] at hxy
              by_cases h2 : b.toNat < c.toNat
              · rw [if_pos (by omega)]
              · by_cases h3 : c.toNat < b.toNat
                · rw [if_neg h2, if_pos h3] at hyz
                  exact absurd hyz (by simp)
                · rw [if_neg h2, if_neg h3] at hyz
                  rw [if_neg (by omega), if_neg (by omega)]
                  exact ih bs cs hxy hyz
  intro a b c hab hbc
  unfold pair_le at *
  rcases hab with h | ⟨he, hs⟩ <;> rcases hbc with h' | ⟨he', hs'⟩
  · left; omega
  · left; omega
  · left; omega
  · right; exact ⟨by omega, hst _ _ _ hs hs'⟩⟩

/-- Embeds `filter_options` (prompts.rs:522).  `matched.sort()` is Rust's
stable sort by the `Ord` of `(i64, &String)`; since that order is total and
antisymmetric the sorted permutation is unique, and it is modelled by
`List.insertionSort` under `pair_le`. -/
def filter_options (matcher : List Char → List Char → Option Int)
    (filter : List Char) (options : List (List Char)) : List (List Char) :=
  let filter_terms := split_whitespace filter
  let matched := options.filterMap (fun option =>
    (calculate_match_score option filter_terms matcher).map
      (fun score => (-score, option)))
  (List.insertionSort pair_le matched).map (fun p => p.2)

/-- Boolean subsequence test: the characters of the first list appear in
order (not necessarily contiguously) in the second. -/
def subseq : List Char → List Char → Bool
  | [], _ => true
  | _ :: _, [] => false
  | a :: p, b :: o => if a = b then subseq p o else subseq (a :: p) o

/-- Modelled from the spec: the external `SkimMatcherV2` fuzzy matcher with
`smart_case` (the crate is outside this repository).  Per the spec's
glossary, a match requires the query's characters to appear in order within
the candidate; `smart_case` makes matching case-insensitive unless the
query contains an uppercase character.  The spec fixes no score formula, so
the model scores a match by the query length; no theorem below depends on
the score values. -/
def fuzzy_match (option query : List Char) : Option Int :=
  if query.any Char.isUpper then
    if subseq query option then some (query.length : Int) else none
  else
    if subseq (query.map Char.toLower) (option.map Char.toLower) then
      some (query.length : Int)
    else none

/-- One scripted terminal event: a key event, a non-key event (which makes
the `while let` read loops exit), or a failing `event::read`. -/
inductive Ev
  | key (code : KeyCode) (modifiers : Modifiers)
  | not_key
  | read_err
deriving DecidableEq, Repr

/-- Outcome of a prompt call in the model, paired below with the final
raw-mode flag.  `panicked` models a Rust panic unwinding out of the call,
`io_err` a propagated terminal I/O error, `interrupted` the `Ctrl-C`
error. -/
inductive PromptOutcome
  | ok (line : List Char)
  | interrupted
  | io_err
  | panicked
deriving DecidableEq, Repr

/-- Embeds the read-dispatch-render loop of `basic_prompt`
(prompts.rs:369).  Raw mode is already enabled when the loop starts; the
returned flag is the raw-mode state when `basic_prompt` returns.  The
source calls `disable_raw_mode` only after the loop exits normally
(prompts.rs:381): an error propagated by `?` from `handle_key` or
`event::read`, or a panic, leaves raw mode enabled. -/
def basic_prompt_loop : PromptState → List Ev → PromptOutcome × Bool
  | s, [] => (.ok s.line, false)
  | s, .not_key :: _ => (.ok s.line, false)
  | _, .read_err :: _ => (.io_err, true)
  | s, .key code modifiers :: rest =>
    match handle_key s code modifiers with
    | none => (.panicked, true)
    | some .interrupted => (.interrupted, true)
    | some (.ok true s') => (.ok s'.line, false)
    | some (.ok false s') => basic_prompt_loop s' rest

/-- Embeds `basic_prompt` (prompts.rs:357) over an event script: prints the
prompt, builds the initial state, enables raw mode and runs the loop. -/
def basic_prompt (prompt : List Char) (events : List Ev) :
    PromptOutcome × Bool :=
  basic_prompt_loop (PromptState.new (prompt.length + 1) 0) events

/-- Outcome of `boolean_prompt` in the model. -/
inductive BoolOutcome
  | ok (value : Bool)
  | interrupted
  | io_err
deriving DecidableEq, Repr

/-- Embeds the loop of `boolean_prompt` (prompts.rs:627): `Ctrl-C` bails
(leaving raw mode enabled), `Enter` breaks, `l`/`f`/`n` set `false`,
`h`/`t`/`y` set `true`; `disable_raw_mode` runs only after the loop
(prompts.rs:655). -/
def boolean_prompt_loop : Bool → List Ev → BoolOutcome × Bool
  | st, [] => (.ok st, false)
  | st, .not_key :: _ => (.ok st, false)
  | _, .read_err :: _ => (.io_err, true)
  | st, .key code modifiers :: rest =>
    match code, modifiers with
    | .char 'c', .control => (.interrupted, true)
    | code, .none | code, .shift =>
      match code with
      | .enter => (.ok st, false)
      | .char 'l' | .char 'f' | .char 'n' => boolean_prompt_loop false rest
      | .char 'h' | .char 't' | .char 'y' => boolean_prompt_loop true rest
      | _ => boolean_prompt_loop st rest
    | _, _ => boolean_prompt_loop st rest

/-- Embeds `boolean_prompt` (prompts.rs:616) over an event script. -/
def boolean_prompt (default : Bool) (events : List Ev) : BoolOutcome × Bool :=
  boolean_prompt_loop default events

/-- Outcome of `select_prompt` in the model.  `conv_err` is the propagated
`u16` conversion error (`ConversionOverflow`). -/
inductive SelectOutcome
  | ok (choice : List Char)
  | interrupted
  | io_err
  | panicked
  | conv_err
deriving DecidableEq, Repr

/-- Embeds the code after the loop of `select_prompt` (prompts.rs:581):
raw mode is disabled, the options are filtered one last time and the
selected one is indexed (a panic when the index is out of bounds, with raw
mode already restored). -/
def select_finish (s : SelectionState) (options : List (List Char)) :
    SelectOutcome × Bool :=
  let filtered := filter_options fuzzy_match s.prompt_state.line options
  match filtered.get? s.selected with
  | some choice => (.ok choice, false)
  | none => (.panicked, false)

/-- Embeds the read-dispatch-render loop of `select_prompt`
(prompts.rs:559): each non-final key is followed by re-filtering and
`update_max_index`; `u16::try_from(filtered.len()).unwrap_or(items_shown)`
is the source's fallback for oversized filtered lists. -/
def select_loop (s : SelectionState) (options : List (List Char)) :
    List Ev → SelectOutcome × Bool
  | [] => select_finish s options
  | .not_key :: _ => select_finish s options
  | .read_err :: _ => (.io_err, true)
  | .key code modifiers :: rest =>
    match select_handle_key s code modifiers with
    | none => (.panicked, true)
    | some .interrupted => (.interrupted, true)
    | some (.ok true s') => select_finish s' options
    | some (.ok false s') =>
      let filtered :=
        filter_options fuzzy_match s'.prompt_state.line options
      let upd :=
        if filtered.isEmpty then s'.update_max_index 0 false
        else
          let new_num_items :=
            if filtered.length ≤ u16Max then filtered.length
            else s'.items_shown
          match checkedSub new_num_items 1 with
          | none => none
          | some m => s'.update_max_index m true
      match upd with
      | none => (.panicked, true)
      | some s2 => select_loop s2 options rest

/-- Embeds `select_prompt` (prompts.rs:535) over an event script.  Before
raw mode is enabled the source computes `items_shown`, converts the prompt
width and the option count to `u16` (a propagated error on overflow) and
computes `max_items = u16::try_from(options.len())? - 1`, which panics
(checked arithmetic) when `options` is empty — still in cooked mode. -/
def select_prompt (prompt : List Char) (options : List (List Char))
    (events : List Ev) : SelectOutcome × Bool :=
  let items_shown := min 10 options.length
  if prompt.length + 1 > u16Max then (.conv_err, false)
  else if options.length > u16Max then (.conv_err, false)
  else
    match checkedSub options.length 1 with
    | none => (.panicked, false)
    | some max_items =>
      select_loop
        (SelectionState.new items_shown (prompt.length + 1) 0 max_items)
        options events

/-- Iterates `next_item` (`true`) and `previous_item` (`false`) over a
script of navigation calls. -/
def run_nav : SelectionState → List Bool → Option SelectionState
  | s, [] => some s
  | s, b :: bs =>
    (if b then s.next_item else s.previous_item).bind fun s' =>
    run_nav s' bs

/-- The editor-state invariant as the spec states it: in `Insert` mode the
cursor is at most the text length, elsewhere at most `len - 1`
(`max 0 (len - 1)` coincides with truncated subtraction on `Nat`). -/
def spec_inv (s : PromptState) : Prop :=
  match s.mode with
  | .insert => s.cursor ≤ s.line.length
  | .normal | .opPending _ => s.cursor ≤ s.line.length - 1

instance : DecidablePred spec_inv := fun s => by
  unfold spec_inv
  cases s.mode <;> infer_instance

/-- The weaker cursor bound that `handle_key` actually preserves in every
mode: the cursor never exceeds the text length. -/
def cursor_in_bounds (s : PromptState) : Prop := s.cursor ≤ s.line.length

/-- The viewport invariant as the spec states it (over `Int`, so that
`first_visible + items_shown - 1` is not truncated). -/
def viewport_inv (s : SelectionState) : Prop :=
  0 ≤ (s.first_item : Int) ∧ (s.first_item : Int) ≤ (s.selected : Int) ∧
    (s.selected : Int) ≤ (s.first_item : Int) + (s.items_shown : Int) - 1

instance : DecidablePred viewport_inv := fun s => by
  unfold viewport_inv; infer_instance

/-- Strengthened precondition under which the navigation calls are total
and preserve the viewport invariant: at least two rows, the viewport start
within the option range, and no `u16` overflow headroom issues. -/
def nav_pre (s : SelectionState) : Prop :=
  viewport_inv s ∧ 2 ≤ s.items_shown ∧ s.first_item ≤ s.max_index ∧
    s.max_index + s.items_shown ≤ u16Max

instance : DecidablePred nav_pre := fun s => by
  unfold nav_pre; infer_instance

section ArithLemmas

theorem checkedSub_eq_some {a b c : Nat} :
    checkedSub a b = some c ↔ b ≤ a ∧ c = a - b := by
  unfold checkedSub
  split <;> simp_all <;> omega

theorem checkedSub_eq_none {a b : Nat} :
    checkedSub a b = none ↔ a < b := by
  unfold checkedSub
  split <;> simp_all

theorem u16Add_eq_some {a b c : Nat} :
    u16Add a b = some c ↔ a + b ≤ u16Max ∧ c = a + b := by
  unfold u16Add
  split <;> simp_all <;> omega

theorem optBind_eq_some {α β : Type} {o : Option α} {f : α → Option β}
    {b : β} : (o >>= f) = some b ↔ ∃ a, o = some a ∧ f a = some b := by
  cases o <;> simp

end ArithLemmas

section CharIndicesLemmas

theorem mem_charIndicesFrom {p : Nat × Char} :
    ∀ {i : Nat} {l : List Char}, p ∈ charIndicesFrom i l →
      i ≤ p.1 ∧ p.1 < i + l.length := by
  intro i l
  induction l generalizing i with
  | nil => simp [charIndicesFrom]
  | cons c cs ih =>
    intro h
    simp only [charIndicesFrom, List.mem_cons] at h
    rcases h with h | h
    · subst h; simp
    · have := ih h
      simp only [List.length_cons]
      omega

theorem charIndicesFrom_drop :
    ∀ (k i : Nat) (l : List Char),
      (charIndicesFrom i l).drop k = charIndicesFrom (i + k) (l.drop k) := by
  intro k
  induction k with
  | zero => simp
  | succ k ih =>
    intro i l
    cases l with
    | nil => simp [charIndicesFrom]
    | cons c cs =>
      simp only [charIndicesFrom, List.drop_succ_cons]
      rw [ih (i + 1) cs]
      congr 1
      omega

theorem pairwise_charIndicesFrom :
    ∀ (i : Nat) (l : List Char),
      (charIndicesFrom i l).Pairwise (fun a b => a.1 < b.1) := by
  intro i l
  induction l generalizing i with
  | nil => simp [charIndicesFrom]
  | cons c cs ih =>
    simp only [charIndicesFrom, List.pairwise_cons]
    refine ⟨fun q hq => ?_, ih (i + 1)⟩
    have := mem_charIndicesFrom hq
    omega

theorem dropWhile_head_false {α : Type} (q : α → Bool) :
    ∀ (l : List α) {h : α} {t : List α}, l.dropWhile q = h :: t →
      q h = false := by
  intro l
  induction l with
  | nil => simp [List.dropWhile]
  | cons a l ih =>
    intro h t he
    rw [List.dropWhile_cons] at he
    split at he
    · exact ih he
    · cases he
      simp_all

/-- An element found by `find? q` right after `dropWhile q` sits strictly
after the head of the dropped list. -/
theorem find?_dropWhile_mem_tail {α : Type} {q : α → Bool} {l : List α}
    {p : α} (hf : (l.dropWhile q).find? q = some p) :
    ∃ h t, l.dropWhile q = h :: t ∧ q h = false ∧ p ∈ t := by
  cases he : l.dropWhile q with
  | nil => rw [he] at hf; simp at hf
  | cons h t =>
    have hh := dropWhile_head_false q l he
    rw [he] at hf
    rw [List.find?_cons_of_neg _ (by simp [hh])] at hf
    exact ⟨h, t, rfl, hh, List.mem_of_find?_eq_some hf⟩

end CharIndicesLemmas

section WordBounds

theorem get_current_word_end_lt {line : List Char} {cursor r : Nat}
    (h : get_current_word_end line cursor = some r) : r < line.length := by
  unfold get_current_word_end at h
  split at h
  case h_1 p hp =>
    have hm : p ∈ charIndicesFrom 0 line := by
      have h1 := List.mem_of_find?_eq_some hp
      have h2 := (List.dropWhile_sublist _).subset h1
      have h3 := (List.drop_sublist _ _).subset h2
      simpa [charIndices] using h3
    have hb := mem_charIndicesFrom hm
    rcases checkedSub_eq_some.mp h with ⟨_, rfl⟩
    omega
  case h_2 =>
    rcases checkedSub_eq_some.mp h with ⟨h1, rfl⟩
    omega

theorem get_current_word_end_some {line : List Char} (cursor : Nat)
    (hne : line ≠ []) : ∃ r, get_current_word_end line cursor = some r := by
  unfold get_current_word_end
  split
  case h_1 p hp =>
    have hm := List.mem_of_find?_eq_some hp
    have hm2 := (List.dropWhile_sublist _).subset hm
    rw [charIndices, charIndicesFrom_drop] at hm2
    have hb := mem_charIndicesFrom hm2
    exact ⟨p.1 - 1, checkedSub_eq_some.mpr ⟨by omega, rfl⟩⟩
  case h_2 =>
    have : line.length ≠ 0 := fun h => hne (List.eq_nil_of_length_eq_zero h)
    exact ⟨line.length - 1, checkedSub_eq_some.mpr ⟨by omega, rfl⟩⟩

theorem get_next_word_start_lt {line : List Char} {cursor r : Nat}
    (h : get_next_word_start line cursor = some r) : r < line.length := by
  unfold get_next_word_start at h
  split at h
  case h_1 p hp =>
    have hm : p ∈ charIndicesFrom 0 line := by
      have h1 := List.mem_of_find?_eq_some hp
      have h2 := (List.dropWhile_sublist _).subset h1
      have h3 := (List.drop_sublist _ _).subset h2
      simpa [charIndices] using h3
    have hb := mem_charIndicesFrom hm
    cases h
    omega
  case h_2 =>
    rcases checkedSub_eq_some.mp h with ⟨h1, rfl⟩
    omega

theorem get_next_word_start_some {line : List Char} (cursor : Nat)
    (hne : line ≠ []) : ∃ r, get_next_word_start line cursor = some r := by
  unfold get_next_word_start
  split
  case h_1 p hp => exact ⟨p.1, rfl⟩
  case h_2 =>
    have : line.length ≠ 0 := fun h => hne (List.eq_nil_of_length_eq_zero h)
    exact ⟨line.length - 1, checkedSub_eq_some.mpr ⟨by omega, rfl⟩⟩

theorem get_current_word_start_le {line : List Char} {cursor r : Nat}
    (h : get_current_word_start line cursor = some r) : r ≤ line.length := by
  unfold get_current_word_start at h
  rw [optBind_eq_some] at h
  rcases h with ⟨k, hk, h⟩
  split at h
  case h_1 p hp =>
    have hm : p ∈ charIndicesFrom 0 line := by
      have h1 := List.mem_of_find?_eq_some hp
      have h2 := (List.dropWhile_sublist _).subset h1
      have h3 := (List.drop_sublist _ _).subset h2
      simpa [charIndices] using List.mem_reverse.mp h3
    have hb := mem_charIndicesFrom hm
    cases h
    omega
  case h_2 =>
    cases h
    omega

theorem get_current_word_start_lt {line : List Char} {cursor r : Nat}
    (h : get_current_word_start line cursor = some r) (hne : line ≠ []) :
    r < line.length := by
  unfold get_current_word_start at h
  rw [optBind_eq_some] at h
  rcases h with ⟨k, hk, h⟩
  split at h
  case h_1 p hp =>
    rcases find?_dropWhile_mem_tail hp with ⟨hd, tl, he, hq, hmem⟩
    have hpair : ((charIndices line).reverse.drop k).Pairwise
        (fun a b => b.1 < a.1) := by
      refine List.Pairwise.sublist (List.drop_sublist _ _) ?_
      rw [List.pairwise_reverse]
      exact pairwise_charIndicesFrom 0 line
    have hpair2 := List.Pairwise.sublist
      (List.dropWhile_sublist (fun p : Nat × Char => !isWordChar p.2)) hpair
    rw [he] at hpair2
    have hlt : p.1 < hd.1 := (List.pairwise_cons.mp hpair2).1 p hmem
    have hhd : hd ∈ charIndicesFrom 0 line := by
      have h0 : hd ∈ ((charIndices line).reverse.drop k).dropWhile
          (fun p => !isWordChar p.2) := by
        rw [he]; exact List.mem_cons_self _ _
      have h1 := (List.dropWhile_sublist _).subset h0
      have h2 := (List.drop_sublist _ _).subset h1
      simpa [charIndices] using List.mem_reverse.mp h2
    have hb := mem_charIndicesFrom hhd
    cases h
    omega
  case h_2 =>
    cases h
    have : line.length ≠ 0 := fun h => hne (List.eq_nil_of_length_eq_zero h)
    omega

theorem get_current_word_start_some {line : List Char} {cursor : Nat}
    (hc : cursor ≤ line.length) :
    ∃ r, get_current_word_start line cursor = some r := by
  unfold get_current_word_start
  rw [show checkedSub line.length cursor = some (line.length - cursor) from
    checkedSub_eq_some.mpr ⟨hc, rfl⟩]
  rw [show ((some (line.length - cursor) : Option Nat) >>= fun k =>
      (match (((charIndices line).reverse.drop k).dropWhile
        (fun p => !isWordChar p.2)).find? (fun p => !isWordChar p.2) with
      | some p => pure (p.1 + 1)
      | none => pure 0 : Option Nat)) =
    (match (((charIndices line).reverse.drop (line.length - cursor)).dropWhile
        (fun p => !isWordChar p.2)).find? (fun p => !isWordChar p.2) with
      | some p => pure (p.1 + 1)
      | none => pure 0 : Option Nat) from rfl]
  split
  case h_1 p hp => exact ⟨p.1 + 1, rfl⟩
  case h_2 => exact ⟨0, rfl⟩

end WordBounds

instance : DecidablePred cursor_in_bounds := fun s => by
  unfold cursor_in_bounds; infer_instance

/-- C2, counterexample: on empty text (a valid input with cursor 0) the
claim fails: `get_next_word_start` and `get_current_word_end` panic
(underflow computing `line.len() - 1`), and `get_current_word_start`
returns 0, which is not in the empty range `[0, len(T))`. -/
theorem word_navigation_empty_counterexample :
    get_next_word_start [] 0 = none ∧ get_current_word_end [] 0 = none ∧
      get_current_word_start [] 0 = some 0 ∧
      ¬ 0 < ([] : List Char).length := by
  decide

/-- C2 (amended): for every non-empty text and every cursor position at
most the text length, the three word-navigation functions do not panic and
return an index in `[0, len(T))`; on empty text they panic or return an
index outside that (empty) range. -/
theorem word_navigation_total_nonempty :
    ∀ (line : List Char) (cursor : Nat), line ≠ [] → cursor ≤ line.length →
      (∃ r, get_current_word_end line cursor = some r ∧ r < line.length) ∧
      (∃ r, get_current_word_start line cursor = some r ∧ r < line.length) ∧
      (∃ r, get_next_word_start line cursor = some r ∧ r < line.length) := by
  intro line cursor hne hc
  refine ⟨?_, ?_, ?_⟩
  · rcases get_current_word_end_some cursor hne with ⟨r, hr⟩
    exact ⟨r, hr, get_current_word_end_lt hr⟩
  · rcases get_current_word_start_some hc with ⟨r, hr⟩
    exact ⟨r, hr, get_current_word_start_lt hr hne⟩
  · rcases get_next_word_start_some cursor hne with ⟨r, hr⟩
    exact ⟨r, hr, get_next_word_start_lt hr⟩

/-- Witness for the amended C2 theorem at text `"ab"`, cursor 1. -/
theorem word_navigation_total_nonempty_witness :
    (∃ r, get_current_word_end ['a', 'b'] 1 = some r ∧ r < 2) ∧
      (∃ r, get_current_word_start ['a', 'b'] 1 = some r ∧ r < 2) ∧
      (∃ r, get_next_word_start ['a', 'b'] 1 = some r ∧ r < 2) :=
  word_navigation_total_nonempty ['a', 'b'] 1 (by decide) (by decide)

section EditorBounds

theorem max_cursor_le {s : PromptState} {m : Nat}
    (h : s.max_cursor = some m) : m ≤ s.line.length := by
  unfold PromptState.max_cursor at h
  split at h
  · cases h; exact Nat.le_refl _
  all_goals rcases checkedSub_eq_some.mp h with ⟨_, rfl⟩; omega

theorem move_left_bounds {s : PromptState} (hb : cursor_in_bounds s) :
    cursor_in_bounds s.move_left := by
  unfold PromptState.move_left
  unfold cursor_in_bounds at *
  split
  · exact Nat.le_trans (Nat.sub_le _ _) hb
  · exact hb

theorem move_right_bounds {s s' : PromptState} (hb : cursor_in_bounds s)
    (h : s.move_right = some s') : cursor_in_bounds s' := by
  unfold PromptState.move_right at h
  rw [optBind_eq_some] at h
  rcases h with ⟨m, hm, h⟩
  have hml := max_cursor_le hm
  unfold cursor_in_bounds at *
  split at h <;> cases h <;> simp <;> omega

theorem move_to_end_bounds {s s' : PromptState}
    (h : s.move_to_end = some s') : cursor_in_bounds s' := by
  unfold PromptState.move_to_end at h
  rw [optBind_eq_some] at h
  rcases h with ⟨m, hm, h⟩
  have hml := max_cursor_le hm
  cases h
  unfold cursor_in_bounds
  simpa using hml

theorem move_to_current_word_end_bounds {s s' : PromptState}
    (hb : cursor_in_bounds s) (h : s.move_to_current_word_end = some s') :
    cursor_in_bounds s' := by
  unfold PromptState.move_to_current_word_end at h
  rw [optBind_eq_some] at h
  rcases h with ⟨m, _, h⟩
  split at h
  · rw [optBind_eq_some] at h
    rcases h with ⟨e, he, h⟩
    cases h
    have := get_current_word_end_lt he
    unfold cursor_in_bounds
    simp
    omega
  · cases h; exact hb

theorem move_to_current_word_start_bounds {s s' : PromptState}
    (hb : cursor_in_bounds s)
    (h : s.move_to_current_word_start = some s') : cursor_in_bounds s' := by
  unfold PromptState.move_to_current_word_start at h
  split at h
  · rw [optBind_eq_some] at h
    rcases h with ⟨w, hw, h⟩
    cases h
    have := get_current_word_start_le hw
    unfold cursor_in_bounds
    simpa
  · cases h; exact hb

theorem move_to_next_word_start_bounds {s s' : PromptState}
    (hb : cursor_in_bounds s) (h : s.move_to_next_word_start = some s') :
    cursor_in_bounds s' := by
  unfold PromptState.move_to_next_word_start at h
  rw [optBind_eq_some] at h
  rcases h with ⟨m, _, h⟩
  split at h
  · rw [optBind_eq_some] at h
    rcases h with ⟨w, hw, h⟩
    cases h
    have := get_next_word_start_lt hw
    unfold cursor_in_bounds
    simp
    omega
  · cases h; exact hb

theorem delete_range_bounds {s s' : PromptState} {a b : Nat}
    (h : s.delete_range a b = some s') : cursor_in_bounds s' := by
  unfold PromptState.delete_range at h
  split at h
  · cases h
    unfold cursor_in_bounds
    simp only [List.length_append, List.length_take, List.length_drop]
    omega
  · cases h

theorem delete_word_bounds {s s' : PromptState} {adj : OpAdjust}
    (h : s.delete_word adj = some s') : cursor_in_bounds s' := by
  unfold PromptState.delete_word at h
  rw [Option.bind_eq_some] at h
  rcases h with ⟨start, _, h⟩
  rw [Option.bind_eq_some] at h
  rcases h with ⟨stop, _, h⟩
  exact delete_range_bounds h

theorem delete_current_char_bounds {s s' : PromptState}
    (h : s.delete_current_char = some s') : cursor_in_bounds s' := by
  unfold PromptState.delete_current_char at h
  split at h
  · cases h
    unfold cursor_in_bounds
    simp only [List.length_eraseIdx]
    split <;> omega
  · cases h

theorem insert_char_bounds {s s' : PromptState} {c : Char}
    (hb : cursor_in_bounds s) (h : s.insert_char c = some s') :
    cursor_in_bounds s' := by
  unfold PromptState.insert_char at h
  rw [optBind_eq_some] at h
  rcases h with ⟨m, hm, h⟩
  have hml := max_cursor_le hm
  unfold cursor_in_bounds at *
  split at h <;> cases h <;> simp_all [List.length_insertIdx] <;> omega

theorem insert_backspace_bounds {s s' : PromptState}
    (hb : cursor_in_bounds s) (h : insert_backspace s = some s') :
    cursor_in_bounds s' := by
  unfold insert_backspace at h
  rw [optBind_eq_some] at h
  rcases h with ⟨m, hm, h⟩
  split at h
  · split at h
    · exact delete_current_char_bounds h
    · cases h; exact hb
  · split at h
    · cases h; exact hb
    · cases h
      rename_i c cs he
      unfold cursor_in_bounds at *
      unfold PromptState.move_left
      split <;> dsimp only at * <;>
        simp only [List.length_dropLast] at * <;> omega

theorem insert_mode_bounds {s : PromptState} (h : cursor_in_bounds s) :
    cursor_in_bounds s.insert_mode := h

theorem normal_mode_bounds {s : PromptState} (h : cursor_in_bounds s) :
    cursor_in_bounds s.normal_mode := h

theorem op_mode_bounds {s : PromptState} {op : Operation}
    (h : cursor_in_bounds s) : cursor_in_bounds (s.operator_pending_mode op) :=
  h

theorem delete_all_bounds {s : PromptState} :
    cursor_in_bounds s.delete_all := Nat.zero_le _

theorem normal_char_bounds {s s' : PromptState} {c : Char}
    (hb : cursor_in_bounds s) (h : normal_char s c = some s') :
    cursor_in_bounds s' := by
  unfold normal_char at h
  split at h
  · cases h; exact insert_mode_bounds hb
  · cases h; exact Nat.zero_le _
  · exact move_right_bounds (insert_mode_bounds hb) h
  · exact move_to_end_bounds h
  · exact delete_current_char_bounds h
  · exact delete_current_char_bounds h
  · cases h; exact move_left_bounds hb
  · exact move_right_bounds hb h
  · cases h; exact op_mode_bounds hb
  · cases h; exact op_mode_bounds hb
  · exact move_to_current_word_end_bounds hb h
  · exact move_to_current_word_start_bounds hb h
  · exact move_to_next_word_start_bounds hb h
  · cases h; exact hb

theorem op_pending_char_bounds {s s' : PromptState} {op : Operation}
    {c : Char} (hb : cursor_in_bounds s) (h : op_pending_char s op c = some s') :
    cursor_in_bounds s' := by
  unfold op_pending_char at h
  split at h
  · cases h; exact op_mode_bounds hb
  · cases h; exact op_mode_bounds hb
  · cases h; exact op_mode_bounds hb
  · cases h; exact op_mode_bounds hb
  · rw [optBind_eq_some] at h
    rcases h with ⟨s1, h1, h⟩
    cases h
    exact insert_mode_bounds (delete_word_bounds h1)
  · rw [optBind_eq_some] at h
    rcases h with ⟨s1, h1, h⟩
    cases h
    exact normal_mode_bounds (delete_word_bounds h1)
  · rw [optBind_eq_some] at h
    rcases h with ⟨e, _, h⟩
    rw [optBind_eq_some] at h
    rcases h with ⟨s1, h1, h⟩
    cases h
    exact insert_mode_bounds (delete_range_bounds h1)
  · rw [optBind_eq_some] at h
    rcases h with ⟨e, _, h⟩
    rw [optBind_eq_some] at h
    rcases h with ⟨s1, h1, h⟩
    cases h
    exact normal_mode_bounds (delete_range_bounds h1)
  · rw [optBind_eq_some] at h
    rcases h with ⟨w, _, h⟩
    rw [optBind_eq_some] at h
    rcases h with ⟨s1, h1, h⟩
    cases h
    exact insert_mode_bounds (delete_range_bounds h1)
  · rw [optBind_eq_some] at h
    rcases h with ⟨w, _, h⟩
    rw [optBind_eq_some] at h
    rcases h with ⟨s1, h1, h⟩
    cases h
    exact normal_mode_bounds (delete_range_bounds h1)
  · cases h; exact insert_mode_bounds delete_all_bounds
  · cases h; exact normal_mode_bounds delete_all_bounds
  · cases h; exact normal_mode_bounds hb

theorem handle_key_unmodified_bounds {s s' : PromptState} {key : KeyCode}
    {done : Bool} (hb : cursor_in_bounds s)
    (h : handle_key_unmodified s key = some (.ok done s')) :
    cursor_in_bounds s' := by
  unfold handle_key_unmodified at h
  split at h
  · cases h; exact hb
  · cases h; exact move_left_bounds (normal_mode_bounds hb)
  · cases h; exact move_left_bounds hb
  · split at h
    · cases h
      rename_i s1 h1
      exact insert_backspace_bounds hb h1
    · cases h
  · split at h
    · cases h
      rename_i s2 h2
      rw [optBind_eq_some] at h2
      rcases h2 with ⟨s1, h1, h2⟩
      exact move_right_bounds (insert_char_bounds hb h1) h2
    · cases h
  · split at h
    · cases h
      rename_i s1 h1
      exact normal_char_bounds hb h1
    · cases h
  · split at h
    · cases h
      rename_i s1 h1
      exact op_pending_char_bounds hb h1
    · cases h
  · cases h; exact hb

end EditorBounds

/-- C3, counterexample: the claimed invariant is violated at a reachable
state: typing `a`, `b`, then `Esc` (entering Normal mode at cursor 1) and
`x` deletes the character under the cursor but leaves the cursor at 1,
one past the end of the one-character text — outside
`[0, max(0, len-1)] = [0, 0]`. -/
theorem editor_invariant_counterexample :
    step_keys (PromptState.new 0 0)
        [(.char 'a', .none), (.char 'b', .none), (.esc, .none),
          (.char 'x', .none)] =
      some { cursor := 1, input_start := 0, input_row := 0, line := ['a'],
             mode := .normal } ∧
    ¬ spec_inv { cursor := 1, input_start := 0, input_row := 0,
                 line := ['a'], mode := .normal } := by
  decide

/-- C3 (amended): whenever `handle_key` completes without panicking, the
weaker bound `cursor ≤ len(text)` is preserved in every mode; in `Normal`
and `OperatorPending` mode the cursor can legitimately rest one past the
last character (e.g. after `x` at the end of the line), so the claimed
bound `cursor ≤ max(0, len-1)` does not hold. -/
theorem handle_key_preserves_cursor_in_bounds :
    ∀ (s : PromptState) (key : KeyCode) (modifiers : Modifiers)
      (done : Bool) (s' : PromptState), cursor_in_bounds s →
      handle_key s key modifiers = some (.ok done s') →
      cursor_in_bounds s' := by
  intro s key modifiers done s' hb h
  unfold handle_key at h
  split at h
  · cases h
  · exact handle_key_unmodified_bounds hb h
  · exact handle_key_unmodified_bounds hb h
  · cases h; exact hb

/-- Witness for the amended C3 theorem: typing `a` into a fresh prompt. -/
theorem handle_key_preserves_cursor_in_bounds_witness :
    cursor_in_bounds { cursor := 1, input_start := 0, input_row := 0,
                       line := ['a'], mode := .insert } :=
  handle_key_preserves_cursor_in_bounds (PromptState.new 0 0) (.char 'a')
    .none false _ (by decide) (by decide)

/-- C6, counterexample: from `"foo bar baz"`, cursor 0, Normal mode, the
sequence `c`,`w` deletes the word *and* the following space (`delete_word`
uses the same range for `cw` as for `dw`), so typing `x` yields
`"xbar baz"`, not the claimed `"x bar baz"`. -/
theorem cw_insert_counterexample :
    step_keys { cursor := 0, input_start := 0, input_row := 0,
                line := "foo bar baz".toList, mode := .normal }
        [(.char 'c', .none), (.char 'w', .none), (.char 'x', .none)] =
      some { cursor := 1, input_start := 0, input_row := 0,
             line := "xbar baz".toList, mode := .insert } ∧
    "xbar baz".toList ≠ "x bar baz".toList := by
  decide

/-- C6 (amended): from `"foo bar baz"` with cursor 0 in Normal mode:
`d`,`w` yields `"bar baz"` with cursor 0; `d`,`e` deletes exactly `"foo"`
(leaving `" bar baz"`) with cursor 0; `c`,`w` followed by typing `x` yields
`"xbar baz"` with cursor 1 (`cw` removes the word together with the
following space, exactly like `dw`). -/
theorem foo_bar_baz_operator_results :
    step_keys { cursor := 0, input_start := 0, input_row := 0,
                line := "foo bar baz".toList, mode := .normal }
        [(.char 'd', .none), (.char 'w', .none)] =
      some { cursor := 0, input_start := 0, input_row := 0,
             line := "bar baz".toList, mode := .normal } ∧
    step_keys { cursor := 0, input_start := 0, input_row := 0,
                line := "foo bar baz".toList, mode := .normal }
        [(.char 'd', .none), (.char 'e', .none)] =
      some { cursor := 0, input_start := 0, input_row := 0,
             line := " bar baz".toList, mode := .normal } ∧
    step_keys { cursor := 0, input_start := 0, input_row := 0,
                line := "foo bar baz".toList, mode := .normal }
        [(.char 'c', .none), (.char 'w', .none), (.char 'x', .none)] =
      some { cursor := 1, input_start := 0, input_row := 0,
             line := "xbar baz".toList, mode := .insert } := by
  decide

theorem step_keys_append (ks1 : List (KeyCode × Modifiers))
    (s : PromptState) (ks2 : List (KeyCode × Modifiers)) :
    step_keys s (ks1 ++ ks2) =
      (step_keys s ks1).bind (fun s' => step_keys s' ks2) := by
  induction ks1 generalizing s with
  | nil => simp [step_keys]
  | cons k ks ih =>
    simp only [List.cons_append, step_keys]
    cases handle_key s k.1 k.2 with
    | none => rfl
    | some r =>
      cases r with
      | interrupted => rfl
      | ok d s2 => exact ih s2

theorem step_keys_fixpoint {s : PromptState} {k : KeyCode × Modifiers}
    (h : handle_key s k.1 k.2 = some (.ok false s)) :
    ∀ m, step_keys s (List.replicate m k) = some s := by
  intro m
  induction m with
  | zero => rfl
  | succ m ih =>
    rw [List.replicate_succ]
    unfold step_keys
    rw [h]
    exact ih

/-- C7, counterexample: on `"one two three"` starting at cursor 0 in Normal
mode, the third press of `w` moves the cursor to offset 12 (the last
character), not to 8 as claimed: `get_next_word_start` falls back to
`len - 1` when no further word start exists. -/
theorem w_motion_counterexample :
    (step_keys { cursor := 0, input_start := 0, input_row := 0,
                 line := "one two three".toList, mode := .normal }
        (List.replicate 3 ((.char 'w', .none) : KeyCode × Modifiers))).map
        PromptState.cursor = some 12 ∧ (12 : Nat) ≠ 8 := by
  decide

/-- C7 (amended): on `"one two three"` starting at cursor 0 in Normal mode,
repeated `w` presses visit offsets 4, 8, then 12 (the last character), and
every press from the third on leaves the cursor at 12. -/
theorem w_motion_visits :
    (step_keys { cursor := 0, input_start := 0, input_row := 0,
                 line := "one two three".toList, mode := .normal }
        (List.replicate 1 ((.char 'w', .none) : KeyCode × Modifiers))).map
        PromptState.cursor = some 4 ∧
    (step_keys { cursor := 0, input_start := 0, input_row := 0,
                 line := "one two three".toList, mode := .normal }
        (List.replicate 2 ((.char 'w', .none) : KeyCode × Modifiers))).map
        PromptState.cursor = some 8 ∧
    ∀ n, 3 ≤ n →
      step_keys { cursor := 0, input_start := 0, input_row := 0,
                  line := "one two three".toList, mode := .normal }
        (List.replicate n ((.char 'w', .none) : KeyCode × Modifiers)) =
      some { cursor := 12, input_start := 0, input_row := 0,
             line := "one two three".toList, mode := .normal } := by
  refine ⟨by decide, by decide, ?_⟩
  intro n hn
  obtain ⟨m, rfl⟩ : ∃ m, n = 3 + m := ⟨n - 3, by omega⟩
  rw [List.replicate_add, step_keys_append]
  rw [show step_keys { cursor := 0, input_start := 0, input_row := 0,
                       line := "one two three".toList, mode := .normal }
      (List.replicate 3 ((.char 'w', .none) : KeyCode × Modifiers)) =
      some { cursor := 12, input_start := 0, input_row := 0,
             line := "one two three".toList, mode := .normal } from
    by decide]
  rw [Option.some_bind]
  exact step_keys_fixpoint (by decide) m

/-- Witness for the amended C7 theorem at `n = 5`. -/
theorem w_motion_visits_witness :
    step_keys { cursor := 0, input_start := 0, input_row := 0,
                line := "one two three".toList, mode := .normal }
      (List.replicate 5 ((.char 'w', .none) : KeyCode × Modifiers)) =
    some { cursor := 12, input_start := 0, input_row := 0,
           line := "one two three".toList, mode := .normal } :=
  w_motion_visits.2.2 5 (by decide)

/-- C10 (confirmed): in Insert mode with the cursor at 0 and non-empty
text, Backspace changes nothing: the guard `cursor < max_cursor()` holds,
and the inner `cursor != 0` check fails, so the state is returned
untouched. -/
theorem insert_backspace_at_start_noop :
    ∀ (s : PromptState), s.mode = .insert → s.cursor = 0 → s.line ≠ [] →
      handle_key s .backspace .none = some (.ok false s) := by
  intro s hm hc hl
  obtain ⟨cur, a, b, line, mode⟩ := s
  simp only at hm hc
  subst hm
  subst hc
  cases line with
  | nil => exact absurd rfl hl
  | cons c cs =>
    simp [handle_key, handle_key_unmodified, insert_backspace,
      PromptState.max_cursor]

/-- Witness for the C10 theorem on text `"a"`. -/
theorem insert_backspace_at_start_noop_witness :
    handle_key { cursor := 0, input_start := 0, input_row := 0,
                 line := ['a'], mode := .insert } .backspace .none =
      some (.ok false { cursor := 0, input_start := 0, input_row := 0,
                        line := ['a'], mode := .insert }) :=
  insert_backspace_at_start_noop _ rfl rfl (by decide)

/-- C1 (code bug): pressing Ctrl-C as the first key event makes each of the
three entry points return the `Interrupted` error with raw mode still
enabled: none of them runs `disable_raw_mode` on the error-propagation
path (`?`), only after a normal loop exit. -/
theorem ctrl_c_leaves_raw_mode_enabled :
    basic_prompt "p".toList [.key (.char 'c') .control] =
      (.interrupted, true) ∧
    boolean_prompt true [.key (.char 'c') .control] = (.interrupted, true) ∧
    select_prompt "p".toList ["a".toList] [.key (.char 'c') .control] =
      (.interrupted, true) := by
  decide

/-- C4, counterexample: invoking `select_prompt` with an empty options list
panics before the loop even starts: `u16::try_from(options.len())? - 1`
underflows on `options.len() = 0`. -/
theorem select_prompt_empty_counterexample :
    select_prompt "p".toList [] [] = (.panicked, false) := by
  decide

/-- C4 (amended): `select_prompt` with an empty options list panics
(checked `u16` underflow computing `max_items`, before raw mode is
enabled) rather than running with no selectable option; for a selection
state whose filter currently has no matches, Enter is inert: the key is
consumed without completing. -/
theorem select_prompt_empty_amended :
    select_prompt "p".toList [] [] = (.panicked, false) ∧
    ∀ s : SelectionState, s.has_options = false →
      select_handle_key s .enter .none = some (.ok false s) := by
  refine ⟨by decide, ?_⟩
  intro s hs
  cases hm : s.prompt_state.mode <;>
    simp [select_handle_key, hm, hs]

theorem optBind_some {α β : Type} (a : α) (f : α → Option β) :
    (some a >>= f) = f a := rfl

section ViewportLemmas

theorem next_item_step {s : SelectionState} (h : nav_pre s) :
    ∃ s', s.next_item = some s' ∧ nav_pre s' := by
  obtain ⟨⟨h0, h1, h2⟩, hk, hfm, hmax⟩ := h
  unfold u16Max at hmax
  unfold SelectionState.next_item
  by_cases hsel : s.selected < s.max_index
  · rw [if_pos hsel]
    rw [show u16Add s.selected 1 = some (s.selected + 1) from
      u16Add_eq_some.mpr ⟨by unfold u16Max; omega, rfl⟩]
    rw [Option.some_bind]
    rw [show u16Add s.first_item s.items_shown =
        some (s.first_item + s.items_shown) from
      u16Add_eq_some.mpr ⟨by unfold u16Max; omega, rfl⟩]
    rw [Option.some_bind]
    rw [show checkedSub (s.first_item + s.items_shown) 2 =
        some (s.first_item + s.items_shown - 2) from
      checkedSub_eq_some.mpr ⟨by omega, rfl⟩]
    rw [Option.some_bind]
    by_cases hc : s.first_item + s.items_shown - 2 < s.selected + 1 ∧
        s.first_item < s.max_index
    · rw [if_pos hc]
      rw [show u16Add s.first_item 1 = some (s.first_item + 1) from
        u16Add_eq_some.mpr ⟨by unfold u16Max; omega, rfl⟩]
      rw [Option.some_bind]
      refine ⟨_, rfl, ?_⟩
      unfold nav_pre viewport_inv u16Max
      dsimp only
      refine ⟨⟨?_, ?_, ?_⟩, ?_, ?_, ?_⟩ <;> omega
    · rw [if_neg hc]
      refine ⟨_, rfl, ?_⟩
      unfold nav_pre viewport_inv u16Max
      dsimp only
      refine ⟨⟨?_, ?_, ?_⟩, ?_, ?_, ?_⟩ <;> omega
  · rw [if_neg hsel]
    refine ⟨s, rfl, ?_⟩
    unfold nav_pre viewport_inv u16Max
    refine ⟨⟨?_, ?_, ?_⟩, ?_, ?_, ?_⟩ <;> omega

theorem previous_item_step {s : SelectionState} (h : nav_pre s) :
    ∃ s', s.previous_item = some s' ∧ nav_pre s' := by
  obtain ⟨⟨h0, h1, h2⟩, hk, hfm, hmax⟩ := h
  unfold u16Max at hmax
  unfold SelectionState.previous_item
  by_cases hsel : s.selected > 0
  · rw [if_pos hsel]
    rw [show checkedSub s.selected 1 = some (s.selected - 1) from
      checkedSub_eq_some.mpr ⟨by omega, rfl⟩]
    rw [Option.some_bind]
    rw [show u16Add s.first_item 1 = some (s.first_item + 1) from
      u16Add_eq_some.mpr ⟨by unfold u16Max; omega, rfl⟩]
    rw [Option.some_bind]
    by_cases hc : s.first_item + 1 > s.selected - 1 ∧ s.first_item > 0
    · rw [if_pos hc]
      rw [show checkedSub s.first_item 1 = some (s.first_item - 1) from
        checkedSub_eq_some.mpr ⟨by omega, rfl⟩]
      rw [Option.some_bind]
      refine ⟨_, rfl, ?_⟩
      unfold nav_pre viewport_inv u16Max
      dsimp only
      refine ⟨⟨?_, ?_, ?_⟩, ?_, ?_, ?_⟩ <;> omega
    · rw [if_neg hc]
      refine ⟨_, rfl, ?_⟩
      unfold nav_pre viewport_inv u16Max
      dsimp only
      refine ⟨⟨?_, ?_, ?_⟩, ?_, ?_, ?_⟩ <;> omega
  · rw [if_neg hsel]
    refine ⟨s, rfl, ?_⟩
    unfold nav_pre viewport_inv u16Max
    refine ⟨⟨?_, ?_, ?_⟩, ?_, ?_, ?_⟩ <;> omega

theorem run_nav_pre :
    ∀ (ops : List Bool) (s : SelectionState), nav_pre s →
      ∃ s', run_nav s ops = some s' ∧ nav_pre s' := by
  intro ops
  induction ops with
  | nil => exact fun s h => ⟨s, rfl, h⟩
  | cons b bs ih =>
    intro s h
    unfold run_nav
    cases b
    · rcases previous_item_step h with ⟨s1, he, h1⟩
      rw [if_neg (by simp), he, Option.some_bind]
      exact ih s1 h1
    · rcases next_item_step h with ⟨s1, he, h1⟩
      rw [if_pos rfl, he, Option.some_bind]
      exact ih s1 h1

end ViewportLemmas

/-- C8, counterexample: the state with `items_shown = 1`,
`selected = first_item = 0`, `max_index = 1` satisfies the claimed
viewport invariant, yet `next_item` panics on it: the `u16` expression
`first_item + items_shown - 2` underflows, so there is no state
afterwards at all. -/
theorem viewport_counterexample :
    viewport_inv { selected := 0, first_item := 0, items_shown := 1,
                   max_index := 1, has_options := true,
                   prompt_state := PromptState.new 0 0 } ∧
    SelectionState.next_item { selected := 0, first_item := 0,
                               items_shown := 1, max_index := 1,
                               has_options := true,
                               prompt_state := PromptState.new 0 0 } =
      none := by
  decide

/-- C8 (amended): for every initial `SelectionState` satisfying the
viewport invariant together with `items_shown ≥ 2`,
`first_visible ≤ max_index` and `max_index + items_shown ≤ 65535`
(no `u16` under/overflow headroom), every finite sequence of
`next_item`/`previous_item` calls completes without panicking and the
resulting state satisfies `0 ≤ first_visible` and
`first_visible ≤ selected ≤ first_visible + items_shown - 1`. -/
theorem nav_preserves_viewport_inv :
    ∀ (s : SelectionState) (ops : List Bool), nav_pre s →
      ∃ s', run_nav s ops = some s' ∧ viewport_inv s' := by
  intro s ops h
  rcases run_nav_pre ops s h with ⟨s', he, h'⟩
  exact ⟨s', he, h'.1⟩

/-- Witness for the amended C8 theorem: three `next_item` calls from a
4-option, 2-row viewport. -/
theorem nav_preserves_viewport_inv_witness :
    ∃ s', run_nav { selected := 0, first_item := 0, items_shown := 2,
                    max_index := 3, has_options := true,
                    prompt_state := PromptState.new 0 0 }
        [true, true, true] = some s' ∧ viewport_inv s' :=
  nav_preserves_viewport_inv _ _ (by decide)

section FilterLemmas

/-- Every option surviving `filter_options` carries its score: members of
the intermediate `matched` list have the shape `(-score, option)`. -/
theorem mem_filter_options {matcher : List Char → List Char → Option Int}
    {filter : List Char} {options : List (List Char)} {o : List Char} :
    o ∈ filter_options matcher filter options ↔
      o ∈ options ∧ ∃ sc,
        calculate_match_score o (split_whitespace filter) matcher =
          some sc := by
  unfold filter_options
  rw [List.mem_map]
  constructor
  · rintro ⟨p, hp, rfl⟩
    have hp' := (List.perm_insertionSort pair_le _).mem_iff.mp hp
    rcases List.mem_filterMap.mp hp' with ⟨o', ho', hf⟩
    rcases Option.map_eq_some'.mp hf with ⟨sc, hsc, hpe⟩
    cases hpe
    exact ⟨ho', sc, hsc⟩
  · rintro ⟨ho, sc, hsc⟩
    refine ⟨(-sc, o), ?_, rfl⟩
    apply (List.perm_insertionSort pair_le _).mem_iff.mpr
    exact List.mem_filterMap.mpr ⟨o, ho, by rw [hsc]; rfl⟩

end FilterLemmas

/-- C5, counterexample: with an empty filter every option scores 0 (no
terms), yet `filter_options` returns `["a", "b"]` for the input
`["b", "a"]`: `matched.sort()` orders equal-score entries by the `String`
component of the `(-score, option)` pair, not by original position. -/
theorem filter_order_counterexample :
    filter_options fuzzy_match [] [['b'], ['a']] = [['a'], ['b']] ∧
    calculate_match_score ['b'] (split_whitespace []) fuzzy_match =
      some 0 ∧
    calculate_match_score ['a'] (split_whitespace []) fuzzy_match =
      some 0 := by
  have h0 : split_whitespace ([] : List Char) = [] := by
    rw [split_whitespace]
  refine ⟨?_, ?_, ?_⟩
  · unfold filter_options
    rw [h0]
    decide
  · rw [h0]; decide
  · rw [h0]; decide

/-- C5 (amended): for every matcher, options list and filter text,
`filter_options` orders the surviving options by descending total score,
with equal-score ties in ascending lexicographic (byte) order of the
option string — not in original input order. -/
theorem filter_options_sorted :
    ∀ (matcher : List Char → List Char → Option Int) (filter : List Char)
      (options : List (List Char)),
      (filter_options matcher filter options).Pairwise (fun o1 o2 =>
        ∃ s1 s2,
          calculate_match_score o1 (split_whitespace filter) matcher =
            some s1 ∧
          calculate_match_score o2 (split_whitespace filter) matcher =
            some s2 ∧
          (s2 < s1 ∨ (s1 = s2 ∧ string_le o1 o2 = true))) := by
  intro matcher filter options
  unfold filter_options
  rw [List.pairwise_map]
  have hs : (List.insertionSort pair_le
      (options.filterMap (fun option =>
        (calculate_match_score option (split_whitespace filter)
          matcher).map (fun score => (-score, option))))).Pairwise
      pair_le :=
    List.sorted_insertionSort pair_le _
  refine hs.imp_of_mem ?_
  intro p q hp hq hle
  have hp' := (List.perm_insertionSort pair_le _).mem_iff.mp hp
  have hq' := (List.perm_insertionSort pair_le _).mem_iff.mp hq
  rcases List.mem_filterMap.mp hp' with ⟨o1, _, hf1⟩
  rcases List.mem_filterMap.mp hq' with ⟨o2, _, hf2⟩
  rcases Option.map_eq_some'.mp hf1 with ⟨s1, hs1, hpe1⟩
  rcases Option.map_eq_some'.mp hf2 with ⟨s2, hs2, hpe2⟩
  cases hpe1
  cases hpe2
  refine ⟨s1, s2, hs1, hs2, ?_⟩
  unfold pair_le at hle
  rcases hle with h | ⟨he, hsle⟩
  · left; omega
  · right; exact ⟨by omega, hsle⟩


section SubseqLemmas

theorem subseq_iff_sublist :
    ∀ (o p : List Char), subseq p o = true ↔ p.Sublist o := by
  intro o
  induction o with
  | nil =>
    intro p
    cases p with
    | nil => simp [subseq]
    | cons a p' => simp [subseq]
  | cons b o ih =>
    intro p
    cases p with
    | nil => simp [subseq, List.nil_sublist]
    | cons a p' =>
      unfold subseq
      by_cases hab : a = b
      · subst hab
        rw [if_pos rfl, ih p', List.cons_sublist_cons]
      · rw [if_neg hab, ih]
        constructor
        · exact fun h => h.cons b
        · intro h
          cases h with
          | cons _ h => exact h
          | cons₂ => exact absurd rfl hab

/-- Prefix monotonicity of the spec-modelled matcher: if a term extended on
the right still matches an option, the original term matches it. -/
theorem fuzzy_match_append {o u r : List Char} {s : Int}
    (h : fuzzy_match o (u ++ r) = some s) :
    ∃ s', fuzzy_match o u = some s' := by
  unfold fuzzy_match at h ⊢
  by_cases hu : u.any Char.isUpper
  · have hur : (u ++ r).any Char.isUpper = true := by
      simp [List.any_append, hu]
    rw [if_pos hur] at h
    rw [if_pos hu]
    split at h
    · rename_i hsub
      have h1 : u.Sublist o :=
        (List.sublist_append_left u r).trans
          ((subseq_iff_sublist o (u ++ r)).mp hsub)
      rw [if_pos ((subseq_iff_sublist o u).mpr h1)]
      exact ⟨_, rfl⟩
    · cases h
  · rw [if_neg hu]
    by_cases hur : (u ++ r).any Char.isUpper
    · rw [if_pos hur] at h
      split at h
      · rename_i hsub
        have h1 : u.Sublist o :=
          (List.sublist_append_left u r).trans
            ((subseq_iff_sublist o (u ++ r)).mp hsub)
        have h2 : (u.map Char.toLower).Sublist (o.map Char.toLower) :=
          h1.map _
        rw [if_pos ((subseq_iff_sublist _ _).mpr h2)]
        exact ⟨_, rfl⟩
      · cases h
    · rw [if_neg hur] at h
      split at h
      · rename_i hsub
        have h1 : ((u ++ r).map Char.toLower).Sublist
            (o.map Char.toLower) := (subseq_iff_sublist _ _).mp hsub
        rw [List.map_append] at h1
        have h2 := (List.sublist_append_left _ _).trans h1
        rw [if_pos ((subseq_iff_sublist _ _).mpr h2)]
        exact ⟨_, rfl⟩
      · cases h

theorem calc_score_isSome :
    ∀ (terms : List (List Char)) (o : List Char)
      (matcher : List Char → List Char → Option Int),
      (calculate_match_score o terms matcher).isSome ↔
        ∀ t ∈ terms, (matcher o t).isSome := by
  intro terms
  induction terms with
  | nil => intro o matcher; simp [calculate_match_score]
  | cons t ts ih =>
    intro o matcher
    unfold calculate_match_score
    constructor
    · intro h
      rcases Option.isSome_iff_exists.mp h with ⟨v, hv⟩
      rw [optBind_eq_some] at hv
      rcases hv with ⟨s1, hs1, hv⟩
      rw [optBind_eq_some] at hv
      rcases hv with ⟨s2, hs2, _⟩
      intro u hu
      rcases List.mem_cons.mp hu with rfl | hu
      · exact Option.isSome_iff_exists.mpr ⟨s1, hs1⟩
      · exact ((ih o matcher).mp
          (Option.isSome_iff_exists.mpr ⟨s2, hs2⟩)) u hu
    · intro h
      rcases Option.isSome_iff_exists.mp
        (h t (List.mem_cons_self t ts)) with ⟨s1, hs1⟩
      rcases Option.isSome_iff_exists.mp ((ih o matcher).mpr
        (fun u hu => h u (List.mem_cons_of_mem t hu))) with ⟨s2, hs2⟩
      rw [hs1]
      apply Option.isSome_iff_exists.mpr
      exact ⟨s1 + s2, by rw [optBind_some, optBind_eq_some]; exact ⟨s2, hs2, rfl⟩⟩

/-- Every whitespace-separated term of `s` reappears in the terms of
`s ++ t`, possibly extended on the right. -/
theorem split_whitespace_append :
    ∀ (s t u : List Char), u ∈ split_whitespace s →
      ∃ v ∈ split_whitespace (s ++ t), ∃ r, v = u ++ r := by
  intro s
  induction s using split_whitespace.induct with
  | case1 => intro t u hu; simp [split_whitespace] at hu
  | case2 c rest hws ih =>
    intro t u hu
    rw [split_whitespace, if_pos hws] at hu
    rw [List.cons_append, split_whitespace, if_pos hws]
    exact ih t u hu
  | case3 c rest hws ih =>
    intro t u hu
    rw [split_whitespace, if_neg hws] at hu
    rw [List.cons_append, split_whitespace, if_neg hws]
    rcases List.mem_cons.mp hu with rfl | hu
    · by_cases hall : (rest.takeWhile
          (fun d => !d.isWhitespace)).length = rest.length
      · have heq : rest.takeWhile (fun d => !d.isWhitespace) = rest :=
          (List.takeWhile_sublist _).eq_of_length hall
        refine ⟨c :: ((rest ++ t).takeWhile (fun d => !d.isWhitespace)),
          List.mem_cons_self _ _,
          t.takeWhile (fun d => !d.isWhitespace), ?_⟩
        rw [List.takeWhile_append, if_pos hall, heq, List.cons_append]
      · refine ⟨c :: ((rest ++ t).takeWhile (fun d => !d.isWhitespace)),
          List.mem_cons_self _ _, [], ?_⟩
        rw [List.takeWhile_append, if_neg hall, List.append_nil]
    · by_cases hemp : (rest.dropWhile (fun d => !d.isWhitespace)).isEmpty
      · rw [List.isEmpty_iff] at hemp
        rw [hemp] at hu
        simp [split_whitespace] at hu
      · rcases ih t u hu with ⟨v, hv, r, hr⟩
        refine ⟨v, ?_, r, hr⟩
        apply List.mem_cons_of_mem
        rw [List.dropWhile_append, if_neg hemp]
        exact hv

end SubseqLemmas

/-- C9 (confirmed, against the spec-modelled matcher): appending one
character to the filter string never gains matches: every option accepted
under the longer filter is accepted under the shorter one.  A whitespace
character adds no term; a non-whitespace character extends the last term
or starts a new one, and subsequence matching (in either smart-case
regime) of an extended term implies matching of the original term. -/
theorem filter_monotone_narrowing :
    ∀ (options : List (List Char)) (s1 : List Char) (c : Char)
      (o : List Char),
      o ∈ filter_options fuzzy_match (s1 ++ [c]) options →
      o ∈ filter_options fuzzy_match s1 options := by
  intro options s1 c o h
  rcases mem_filter_options.mp h with ⟨ho, sc, hsc⟩
  refine mem_filter_options.mpr ⟨ho, ?_⟩
  have hall : ∀ t ∈ split_whitespace (s1 ++ [c]),
      (fuzzy_match o t).isSome :=
    (calc_score_isSome _ _ _).mp (Option.isSome_iff_exists.mpr ⟨sc, hsc⟩)
  have hall1 : ∀ t ∈ split_whitespace s1, (fuzzy_match o t).isSome := by
    intro t ht
    rcases split_whitespace_append s1 [c] t ht with ⟨v, hv, r, rfl⟩
    rcases Option.isSome_iff_exists.mp (hall _ hv) with ⟨s, hs⟩
    rcases fuzzy_match_append hs with ⟨s', hs'⟩
    exact Option.isSome_iff_exists.mpr ⟨s', hs'⟩
  exact Option.isSome_iff_exists.mp ((calc_score_isSome _ _ _).mpr hall1)

/-- Witness for the C9 theorem: option `"ab"`, filter `"a"` extended by
`'b'`. -/
theorem filter_monotone_narrowing_witness :
    ['a', 'b'] ∈ filter_options fuzzy_match ['a'] [['a', 'b']] :=
  filter_monotone_narrowing [['a', 'b']] ['a'] 'b' ['a', 'b'] (by
    have h1 : split_whitespace (['a'] ++ ['b']) = [['a', 'b']] := by
      simp [split_whitespace]
    unfold filter_options
    rw [h1]
    decide)

/-- Witness for the amended C4 theorem. -/
theorem select_prompt_empty_amended_witness :
    select_handle_key
        { selected := 0, first_item := 0, items_shown := 1, max_index := 0,
          has_options := false, prompt_state := PromptState.new 0 0 }
        .enter .none =
      some (.ok false
        { selected := 0, first_item := 0, items_shown := 1, max_index := 0,
          has_options := false, prompt_state := PromptState.new 0 0 }) :=
  select_prompt_empty_amended.2 _ rfl

end Prompts
